import Mathlib

/-!
Verification of the render core of priroda (src/render/graphviz.rs and
src/render/source.rs): the control-flow-graph renderer and the source
highlighter are embedded shallowly and the spec's testable properties are
settled against the embedding.

Rust strings that the source slices by position are modelled as `List Char`
(`Str`); external collaborators (the rustc terminator API, the syntect
tokenizer and `split_at` utility, the hasher, span resolution) are modelled
from their documented contracts, mostly as explicit parameters.
-/

namespace Priroda

/-- Visual style of a highlighted token (models syntect's `Style`; its fields
are irrelevant to the renderer, only equality matters). -/
abbrev Style := Nat

/-- Rust string/`&str` contents, position-indexed. -/
abbrev Str := List Char

/-- A half-open index range, models Rust's `core::ops::Range<usize>`. -/
structure ByteRange where
  start : Nat
  stop : Nat
deriving DecidableEq, Repr, Inhabited

/-- A source span: an identity (standing for the file/byte-range identity of a
rustc `Span`) plus the macro-expansion call-site relation, i.e. what
`span.macro_backtrace().next().map(|b| b.call_site)` returns. -/
inductive Span where
  | mk (id : Nat) (callSite : Option Span)

instance : Inhabited Span := ⟨.mk 0 none⟩

/-- Decidable equality of spans (the nested `Option` field rules out the
derive handler). -/
def Span.decEqAux : (a b : Span) → Decidable (a = b)
  | .mk i none, .mk j none =>
    if h : i = j then .isTrue (by subst h; rfl)
    else .isFalse (by simp only [Span.mk.injEq]; rintro ⟨h1, -⟩; exact h h1)
  | .mk _ none, .mk _ (some _) =>
    .isFalse (by simp only [Span.mk.injEq]; rintro ⟨-, h2⟩; exact Option.noConfusion h2)
  | .mk _ (some _), .mk _ none =>
    .isFalse (by simp only [Span.mk.injEq]; rintro ⟨-, h2⟩; exact Option.noConfusion h2)
  | .mk i (some c), .mk j (some d) =>
    if h : i = j then
      match Span.decEqAux c d with
      | .isTrue hc => .isTrue (by subst h; subst hc; rfl)
      | .isFalse hc =>
        .isFalse (by
          simp only [Span.mk.injEq, Option.some.injEq]
          rintro ⟨-, h2⟩
          exact hc h2)
    else .isFalse (by simp only [Span.mk.injEq]; rintro ⟨h1, -⟩; exact h h1)

instance : DecidableEq Span := Span.decEqAux

/-- The macro-expansion parent of a span, if any. -/
def Span.callSite : Span → Option Span
  | .mk _ cs => cs

/-- The terminator kinds distinguished by the renderer (rustc's
`TerminatorKind`); every kind the code's `_` arm covers is folded into
`other`, which carries its successor list. -/
inductive TerminatorKind where
  | goto (target : Nat)
  | switchInt (targets : List Nat)
  | drop (target : Nat) (unwind : Option Nat)
  | dropAndReplace (target : Nat) (unwind : Option Nat)
  | call (destination : Option Nat) (cleanup : Option Nat)
  | other (succs : List Nat)
deriving DecidableEq, Repr

/-- Successor blocks reported by a terminator (models the external
`rustc_middle` `Terminator::successors`). -/
def TerminatorKind.succ_list : TerminatorKind → List Nat
  | .goto t => [t]
  | .switchInt ts => ts
  | .drop t u | .dropAndReplace t u => [t] ++ u.toList
  | .call d c => d.toList ++ c.toList
  | .other ss => ss

/-- Edge labels, one per successor, in successor order (models the external
`TerminatorKind::fmt_successor_labels`; the label text itself is irrelevant
to the claims, only its arity). -/
def TerminatorKind.fmt_successor_labels : TerminatorKind → List String
  | .goto _ => [""]
  | .switchInt ts => ts.map (fun _ => "value")
  | .drop _ u | .dropAndReplace _ u => "return" :: (u.map (fun _ => "unwind")).toList
  | .call d c => (d.map fun _ => "return").toList ++ (c.map fun _ => "unwind").toList
  | .other ss => ss.map (fun _ => "")

/-- The terminator's textual head (models the external
`TerminatorKind::fmt_head`, which prints the kind and operands but not the
successor list). -/
def TerminatorKind.fmt_head : TerminatorKind → String
  | .goto _ => "goto"
  | .switchInt _ => "switchInt"
  | .drop _ _ => "drop"
  | .dropAndReplace _ _ => "replace"
  | .call _ _ => "call"
  | .other _ => "other"

/-- A block terminator: its kind and its `source_info.span`. -/
structure Terminator where
  kind : TerminatorKind
  span : Span

instance : Inhabited Terminator := ⟨{ kind := .other [], span := default }⟩

/-- A MIR statement: its `source_info.span`, whether `should_hide_stmt` flags
it, and its debug text. -/
structure Statement where
  span : Span
  hide : Bool
  text : String
deriving DecidableEq

instance : Inhabited Statement := ⟨{ span := default, hide := false, text := "" }⟩

/-- A basic block: its ordered statements and its terminator. -/
structure BasicBlockData where
  statements : List Statement
  terminator : Terminator

instance : Inhabited BasicBlockData := ⟨{ statements := [], terminator := default }⟩

/-- A MIR body: its blocks, indexed by position, and its whole-body span. -/
structure Body where
  basic_blocks : List BasicBlockData
  span : Span

/-- `mir.basic_blocks()[block]`; the default is never reached under the
caller contract (block index in range). -/
def Body.blockAt (mir : Body) (i : Nat) : BasicBlockData :=
  mir.basic_blocks.getD i default

/-- A program point: block index and statement index; statement index equal to
the block's statement count denotes "at the terminator". -/
structure Location where
  block : Nat
  statement_index : Nat
deriving DecidableEq, Repr

/-- The slice of an interpreter frame the renderers read: the body and the
current location (`None` while unwinding). -/
structure Frame where
  body : Body
  loc : Option Location

/-- The breakpoint membership test
(`LocalBreakpoints::breakpoint_exists(Option<Location>)`). -/
def LocalBreakpoints := Option Location → Bool

/-- The node name emitted by `fn node`: `promoted{p}.{i}` when a promoted tag
is present, otherwise `bb{i}`; the two formats never coincide, which the two
constructors capture. -/
inductive NodeName where
  | bb (index : Nat)
  | promoted (tag : Nat) (index : Nat)
deriving DecidableEq, Repr

/-- `fn node(promoted, block)`. -/
def node (promoted : Option Nat) (block : Nat) : NodeName :=
  match promoted with
  | some p => .promoted p block
  | none => .bb block

/-- Models the external `rocket` `RawStr::html_escape` at the boundary,
abstracted to its text content. -/
def escape_html (s : String) : String := s

/-- `fn escape` applied to a statement (`Debug`-format then html-escape),
abstracted to the statement's debug text. -/
def escape (s : Statement) : String := escape_html s.text

/-- Modelled from the spec: the crate-level `should_hide_stmt` predicate (not
among the given source files) flags statements "not interesting to show in
full", carried here as the statement's `hide` flag. -/
def should_hide_stmt (s : Statement) : Bool := s.hide

/-- One statement row of a node label: its breakpoint marker (`+ ` vs
`&nbsp; `) and its display text (`<+>` placeholder or escaped text). -/
structure StmtRow where
  breakpoint : Bool
  display : String
deriving DecidableEq, Repr

/-- The label table `fn write_node_label` emits: header cell, the optional
statements cell (absent when the block has no statements), and the
terminator head cell. -/
structure NodeLabel where
  header : NodeName
  statement_rows : Option (List StmtRow)
  terminator_head : String
deriving DecidableEq, Repr

/-- `fn write_node_label`. -/
def write_node_label (block : Nat) (mir : Body) (breakpoints : LocalBreakpoints)
    (promoted : Option Nat) : NodeLabel :=
  let data := mir.blockAt block
  { header := node promoted block
    statement_rows :=
      if data.statements.isEmpty then none
      else some (data.statements.enum.map fun p =>
        { breakpoint := breakpoints (some { block := block, statement_index := p.1 })
          display := if should_hide_stmt p.2 then "<+>" else escape p.2 })
    terminator_head := data.terminator.kind.fmt_head }

/-- An item of the emitted graph description: a node declaration or an edge
(the fixed digraph header lines carry no content and are dropped). -/
inductive DotItem where
  | node (name : NodeName) (label : NodeLabel)
  | edge (source target : NodeName) (label : String)
deriving DecidableEq, Repr

/-- `fn write_node`. -/
def write_node (block : Nat) (mir : Body) (breakpoints : LocalBreakpoints)
    (promoted : Option Nat) : DotItem :=
  .node (node promoted block) (write_node_label block mir breakpoints promoted)

/-- `fn write_edges`: one edge per successor, zipped with the successor
labels; note the endpoints use `node(None, _)` even in a promoted render. -/
def write_edges (source : Nat) (mir : Body) : List DotItem :=
  let terminator := (mir.blockAt source).terminator
  let labels := terminator.kind.fmt_successor_labels
  (terminator.kind.succ_list.zip labels).map fun p =>
    .edge (node none source) (node none p.1) p.2

/-- `fn render_mir_svg`, up to the external layout-engine invocation: the
graph description it assembles — all nodes in block order, then all edges in
block order. -/
def render_mir_svg (mir : Body) (breakpoints : LocalBreakpoints)
    (promoted : Option Nat) : List DotItem :=
  ((List.range mir.basic_blocks.length).map fun block =>
    write_node block mir breakpoints promoted)
  ++ ((List.range mir.basic_blocks.length).map fun source =>
    write_edges source mir).flatten

/-- An edge-overlay color: `green` tags the normal path, `red` the unwind
path. -/
inductive Color where
  | green
  | red
deriving DecidableEq, Repr

/-- The edge-color map `render_html` builds (its `edge_colors` JS object):
entries keyed `bb{from}->bb{to}` with their color, kept here as triples. -/
def edge_colors (body : Body) (block : Nat) (statement_index : Nat) :
    List (Nat × Nat × Color) :=
  let blck := body.blockAt block
  let p : List Nat × Option Nat :=
    if statement_index = blck.statements.length then
      match blck.terminator.kind with
      | .goto target => ([target], none)
      | .switchInt targets => (targets, none)
      | .drop target unwind | .dropAndReplace target unwind => ([target], unwind)
      | .call destination cleanup =>
        match destination with
        | some target => ([target], cleanup)
        | none => ([], cleanup)
      | .other _ => ([], none)
    else ([], none)
  (p.1.map fun target => (block, target, Color.green))
    ++ (p.2.toList.map fun target => (block, target, Color.red))

/-- The `(bb, stmt)` row computation of `render_html` (its second component):
the `text:nth-child` row index marking the current statement; `none` models
the `assert!(statement_index < blck.statements.len())` failure. -/
def current_row (blck : BasicBlockData) (statement_index : Nat) : Option Nat :=
  if statement_index = blck.statements.length then
    some (if blck.statements.isEmpty then 6 else blck.statements.length + 7)
  else if statement_index < blck.statements.length then
    some (statement_index + 6)
  else none

/-- The position overlay `render_html` appends: the node selector index
(`block.index() + 1`), the marked row, and the edge-color map. -/
structure Overlay where
  bb : Nat
  stmt : Nat
  edge_colors : List (Nat × Nat × Color)
deriving DecidableEq, Repr

/-- The output of `render_html`: the emitted graph description (layout engine
abstracted), whether the red `Unwinding` placeholder is shown, and the
position overlay (absent exactly when unwinding). -/
structure RenderedHtml where
  svg : List DotItem
  unwinding : Bool
  overlay : Option Overlay
deriving DecidableEq, Repr

/-- `fn render_html`; `none` models a panic (out-of-range block or statement
index — a caller contract violation). -/
def render_html (frame : Frame) (breakpoints : LocalBreakpoints) :
    Option RenderedHtml :=
  let rendered := render_mir_svg frame.body breakpoints none
  match frame.loc with
  | none => some { svg := rendered, unwinding := true, overlay := none }
  | some location =>
    if location.block < frame.body.basic_blocks.length then
      match current_row (frame.body.blockAt location.block) location.statement_index with
      | some stmt =>
        some { svg := rendered, unwinding := false
               overlay := some { bb := location.block + 1, stmt := stmt
                                 edge_colors :=
                                   edge_colors frame.body location.block
                                     location.statement_index } }
      | none => none
    else none

/-- The concatenated text content of a styled token list ("ignoring markup"). -/
def joinTexts (l : List (Style × Str)) : Str := (l.map Prod.snd).flatten

/-- Models syntect's `LinesWithEndings`: the physical lines of a text, each
including its line terminator; they concatenate back to the text. -/
def linesWithEndings : Str → List Str
  | [] => []
  | c :: cs =>
    if c = '\n' then ['\n'] :: linesWithEndings cs
    else
      match linesWithEndings cs with
      | [] => [[c]]
      | l :: ls => (c :: l) :: ls

/-- The range assignment inside `syntax_highlight`'s per-line map: each token
of the line gets the whole-file range starting at the running offset. -/
def tokenRanges (index : Nat) : List (Style × Str) → List (Style × ByteRange)
  | [] => []
  | t :: rest =>
    (t.1, { start := index, stop := index + t.2.length })
      :: tokenRanges (index + t.2.length) rest

/-- The line loop of `fn syntax_highlight`: feed each line to the stateful
tokenizer (`HighlightLines::highlight`, a parameter of state type `σ`),
convert its per-line tokens into whole-file ranges, and advance the running
offset by the token lengths. -/
def highlight_go {σ : Type} (tokenize : σ → Str → σ × List (Style × Str)) :
    σ → Nat → List Str → List (Style × ByteRange)
  | _, _, [] => []
  | st, index, line :: rest =>
    let out := tokenize st line
    tokenRanges index out.2
      ++ highlight_go tokenize out.1
          (index + (out.2.map (fun t => t.2.length)).sum) rest

/-- `fn syntax_highlight`, parameterized over the external stateful
line tokenizer and its initial state. -/
def syntax_highlight {σ : Type} (tokenize : σ → Str → σ × List (Style × Str))
    (st0 : σ) (src : Str) : List (Style × ByteRange) :=
  highlight_go tokenize st0 0 (linesWithEndings src)

/-- `&file_contents[range]`. -/
def sliceRange (cs : Str) (r : ByteRange) : Str :=
  (cs.drop r.start).take (r.stop - r.start)

/-- Models the external syntect util `split_at`: split a styled text at a
character index — the first part carries the first `i` characters, the second
the rest, splitting a token in the middle when the index falls inside it. -/
def split_at : List (Style × Str) → Nat → List (Style × Str) × List (Style × Str)
  | [], _ => ([], [])
  | t :: rest, i =>
    if i = 0 then ([], t :: rest)
    else if t.2.length ≤ i then
      let p := split_at rest (i - t.2.length)
      (t :: p.1, p.2)
    else ([(t.1, t.2.take i)], (t.1, t.2.drop i) :: rest)

/-- The output shape of `fn mark_span`, with the three html-rendered slices
abstracted to their text content: a standalone pointer glyph between the
outer slices (the `lo == hi` case), or the marked middle slice wrapped
between them. -/
inductive Marked where
  | glyph (before after : Str)
  | wrapped (before it after : Str)
deriving DecidableEq, Repr

/-- `fn mark_span`: slice the styled ranges out of the file text, split at
`lo` and then at `hi - lo`, and wrap the middle; `none` models the
`assert_eq!`/`assert_ne!` panics on the marked slice's emptiness. -/
def mark_span (file_contents : Str) (src : List (Style × ByteRange))
    (lo hi : Nat) : Option Marked :=
  let srcT := src.map fun p => (p.1, sliceRange file_contents p.2)
  let p1 := split_at srcT lo
  let p2 := split_at p1.2 (hi - lo)
  let beforeS := joinTexts p1.1
  let itS := joinTexts p2.1
  let afterS := joinTexts p2.2
  if lo = hi then
    if itS.length = 0 then some (Marked.glyph beforeS afterS) else none
  else
    if itS.length = 0 then none else some (Marked.wrapped beforeS itS afterS)

/-- A highlight-cache entry: the file's text and its styled-range
decomposition. -/
structure HighlightCacheEntry where
  string : Str
  highlighted : List (Style × ByteRange)
deriving DecidableEq, Repr

/-- The thread-local `CACHED_HIGHLIGHTED_FILES` map, hash key to entry
(the `HashMap` modelled as an association list). -/
abbrev Cache := List (Nat × HighlightCacheEntry)

/-- The cache lookup-or-insert of `render_source` (its
`cache.entry(hash).or_insert_with(..)` block), with the `DefaultHasher`
abstracted to a hash parameter; the `Bool` reports whether the highlighter
actually ran (the side-channel the spec's idempotence property observes). -/
def get_or_compute {σ : Type} (hashF : Str → Nat)
    (tokenize : σ → Str → σ × List (Style × Str)) (st0 : σ)
    (cache : Cache) (src : Str) : HighlightCacheEntry × Cache × Bool :=
  let h := hashF src
  match cache.find? (fun p => p.1 == h) with
  | some p => (p.2, cache, false)
  | none =>
    let entry : HighlightCacheEntry :=
      { string := src, highlighted := syntax_highlight tokenize st0 src }
    (entry, (h, entry) :: cache, true)

/-- The `while let` loop of `render_source` lines 82-90, started from a
singleton: the span chain from innermost to outermost, following the
call-site relation of the last-seen span until none exists. -/
def macro_chain : Span → List Span
  | .mk i cs =>
    .mk i cs ::
      (match cs with
       | none => []
       | some parent => macro_chain parent)

/-- One rendered chain entry's payload: the placeholder for a span whose file
text could not be resolved (carrying the error text, shown beside the span's
debug form), or the marked markup for a resolved span. -/
inductive SourceEntryResult where
  | placeholder (err : String)
  | marked (m : Option Marked)
deriving DecidableEq, Repr

/-- One rendered chain entry: the span it came from (displayed as its pretty
path, or its debug form for a placeholder) and its payload. -/
structure SourceEntry where
  sp : Span
  result : SourceEntryResult

instance : Inhabited SourceEntry := ⟨{ sp := default, result := .placeholder "" }⟩

/-- The per-span body of `render_source`'s map (lines 95-125): resolve the
span to (file text, lo, hi) — on failure produce the placeholder entry — then
look up or compute the highlight-cache entry and mark the span in it. -/
def process_span {σ : Type} (hashF : Str → Nat)
    (tokenize : σ → Str → σ × List (Style × Str)) (st0 : σ)
    (resolve : Span → Except String (Str × Nat × Nat))
    (cache : Cache) (sp : Span) : Cache × SourceEntry :=
  match resolve sp with
  | .error err => (cache, { sp := sp, result := .placeholder err })
  | .ok r =>
    let g := get_or_compute hashF tokenize st0 cache r.1
    (g.2.1, { sp := sp
              result := .marked (mark_span g.1.string g.1.highlighted r.2.1 r.2.2) })

/-- `render_source`'s map over the chain, threading the thread-local cache
through the iterations. -/
def process_spans {σ : Type} (hashF : Str → Nat)
    (tokenize : σ → Str → σ × List (Style × Str)) (st0 : σ)
    (resolve : Span → Except String (Str × Nat × Nat)) :
    Cache → List Span → Cache × List SourceEntry
  | cache, [] => (cache, [])
  | cache, sp :: rest =>
    let p := process_span hashF tokenize st0 resolve cache sp
    let q := process_spans hashF tokenize st0 resolve p.1 rest
    (q.1, p.2 :: q.2)

/-- `fn render_source`: empty output for a missing frame; otherwise the
initial span is the current statement's (or the terminator's, or the whole
body's when no location is resolvable), the macro chain is expanded from it,
reversed, and each span processed in order. -/
def render_source {σ : Type} (hashF : Str → Nat)
    (tokenize : σ → Str → σ × List (Style × Str)) (st0 : σ)
    (resolve : Span → Except String (Str × Nat × Nat))
    (cache : Cache) (frame : Option Frame) : Cache × List SourceEntry :=
  match frame with
  | none => (cache, [])
  | some frame =>
    let instr_span : Span :=
      match frame.loc with
      | some location =>
        let blck := frame.body.blockAt location.block
        if location.statement_index = blck.statements.length then
          blck.terminator.span
        else (blck.statements.getD location.statement_index default).span
      | none => frame.body.span
    process_spans hashF tokenize st0 resolve cache (macro_chain instr_span).reverse

/-- The styled ranges run contiguously from `i` to `j`: the first starts at
`i`, each next one starts where the previous stopped, and the last stops at
`j` — no gaps, no overlaps. -/
def contiguousFromTo : Nat → Nat → List (Style × ByteRange) → Bool
  | i, j, [] => i == j
  | i, j, r :: rest => (r.2.start == i) && contiguousFromTo r.2.stop j rest

/-- The length of a styled range. -/
def rangeLen (p : Style × ByteRange) : Nat := p.2.stop - p.2.start

/-- Whether a dot item is a node declaration. -/
def isNodeItem : DotItem → Bool
  | .node _ _ => true
  | .edge _ _ _ => false

/-- Whether a dot item is an edge leaving block `i`. -/
def isEdgeFrom (i : Nat) : DotItem → Bool
  | .edge s _ _ => decide (s = NodeName.bb i)
  | .node _ _ => false

/-- A minimal contract-satisfying line tokenizer for concrete evaluations:
the whole line as one token. -/
def wholeLineTok : Unit → Str → Unit × List (Style × Str) :=
  fun st line => (st, [(0, line)])

/-- The spec's end-to-end scenario block: two statements and a two-target
branch terminator. -/
def branchBlock : BasicBlockData :=
  { statements := [default, default]
    terminator := { kind := .switchInt [0, 0], span := default } }

/-- The spec's end-to-end scenario body: one block, no breakpoints. -/
def branchBody : Body := { basic_blocks := [branchBlock], span := default }

/-- A two-block body for concrete edge/node counting: a call with a normal
continuation and a cleanup successor, then a block with no successors. -/
def twoBlockBody : Body :=
  { basic_blocks :=
      [ { statements := []
          terminator := { kind := .call (some 1) (some 1), span := default } },
        { statements := [default]
          terminator := { kind := .other [], span := default } } ]
    span := default }

/-- A one-block self-loop body for concrete promoted-render checks. -/
def gotoBody : Body :=
  { basic_blocks :=
      [{ statements := [], terminator := { kind := .goto 0, span := default } }]
    span := default }

/-- The outermost span of the synthetic three-span macro chain. -/
def spanOuter (c : Nat) : Span := .mk c none

/-- The middle span of the synthetic chain, expanded from the outer one. -/
def spanMid (b c : Nat) : Span := .mk b (some (spanOuter c))

/-- The innermost span of the synthetic chain (the executing text). -/
def spanInner (a b c : Nat) : Span := .mk a (some (spanMid b c))

/-- A body whose single statement carries the innermost synthetic span. -/
def chainBody (a b c : Nat) : Body :=
  { basic_blocks :=
      [{ statements := [{ span := spanInner a b c, hide := false, text := "" }]
         terminator := default }]
    span := default }

/-- A span whose file text will not resolve in the concrete chain. -/
def failSpan : Span := .mk 10 none

/-- A span that resolves in the concrete chain. -/
def okSpan : Span := .mk 11 none

/-- A concrete resolver failing exactly on `failSpan`. -/
def resolveFailFirst : Span → Except String (Str × Nat × Nat) :=
  fun sp => if sp = failSpan then .error "gone" else .ok (['a'], 0, 1)

theorem joinTexts_cons (t : Style × Str) (l : List (Style × Str)) :
    joinTexts (t :: l) = t.2 ++ joinTexts l := by
  simp [joinTexts]

theorem length_joinTexts (l : List (Style × Str)) :
    (joinTexts l).length = (l.map (fun t => t.2.length)).sum := by
  induction l with
  | nil => rfl
  | cons t rest ih => simp [joinTexts_cons, ih]

theorem flatten_linesWithEndings (s : Str) : (linesWithEndings s).flatten = s := by
  induction s with
  | nil => rfl
  | cons c cs ih =>
    simp only [linesWithEndings]
    by_cases h : c = '\n'
    · subst h
      rw [if_pos rfl]
      simpa using ih
    · rw [if_neg h]
      cases hl : linesWithEndings cs with
      | nil =>
        rw [hl] at ih
        simp at ih
        simp [← ih]
      | cons l ls =>
        rw [hl] at ih
        simpa using ih

theorem contiguous_append {i j k : Nat} {l1 l2 : List (Style × ByteRange)}
    (h1 : contiguousFromTo i j l1 = true) (h2 : contiguousFromTo j k l2 = true) :
    contiguousFromTo i k (l1 ++ l2) = true := by
  induction l1 generalizing i with
  | nil =>
    simp only [contiguousFromTo, beq_iff_eq] at h1
    subst h1
    simpa using h2
  | cons r rest ih =>
    simp only [contiguousFromTo, Bool.and_eq_true, beq_iff_eq] at h1
    simp only [List.cons_append, contiguousFromTo, Bool.and_eq_true, beq_iff_eq]
    exact ⟨h1.1, ih h1.2⟩

theorem tokenRanges_contiguous (toks : List (Style × Str)) (i : Nat) :
    contiguousFromTo i (i + (toks.map (fun t => t.2.length)).sum)
      (tokenRanges i toks) = true := by
  induction toks generalizing i with
  | nil => simp [tokenRanges, contiguousFromTo]
  | cons t rest ih =>
    simp only [tokenRanges, List.map_cons, List.sum_cons, contiguousFromTo,
      Bool.and_eq_true, beq_iff_eq]
    refine ⟨by trivial, ?_⟩
    have := ih (i + t.2.length)
    rwa [Nat.add_assoc] at this

theorem tokenRanges_sum (toks : List (Style × Str)) (i : Nat) :
    ((tokenRanges i toks).map rangeLen).sum
      = (toks.map (fun t => t.2.length)).sum := by
  induction toks generalizing i with
  | nil => rfl
  | cons t rest ih =>
    simp only [tokenRanges, List.map_cons, List.sum_cons, rangeLen,
      Nat.add_sub_cancel_left]
    rw [ih (i + t.2.length)]

theorem highlight_go_contiguous {σ : Type}
    (tokenize : σ → Str → σ × List (Style × Str))
    (hc : ∀ st line, joinTexts (tokenize st line).2 = line)
    (lines : List Str) : ∀ (st : σ) (i : Nat),
    contiguousFromTo i (i + lines.flatten.length)
      (highlight_go tokenize st i lines) = true := by
  induction lines with
  | nil => intro st i; simp [highlight_go, contiguousFromTo]
  | cons line rest ih =>
    intro st i
    simp only [highlight_go]
    have hsum : ((tokenize st line).2.map (fun t => t.2.length)).sum = line.length := by
      rw [← length_joinTexts, hc]
    apply contiguous_append (j := i + line.length)
    · rw [← hsum]
      exact tokenRanges_contiguous _ _
    · have h2 := ih (tokenize st line).1 (i + line.length)
      rw [hsum]
      simpa [Nat.add_assoc] using h2

theorem highlight_go_sum {σ : Type}
    (tokenize : σ → Str → σ × List (Style × Str))
    (hc : ∀ st line, joinTexts (tokenize st line).2 = line)
    (lines : List Str) : ∀ (st : σ) (i : Nat),
    ((highlight_go tokenize st i lines).map rangeLen).sum = lines.flatten.length := by
  induction lines with
  | nil => intro st i; rfl
  | cons line rest ih =>
    intro st i
    have hsum : ((tokenize st line).2.map (fun t => t.2.length)).sum = line.length := by
      rw [← length_joinTexts, hc]
    simp only [highlight_go, List.map_append, List.sum_append, List.flatten_cons,
      List.length_append]
    rw [tokenRanges_sum, hsum, ih]

/-- Claim C4: for every input text (and every tokenizer honouring the
collaborator contract that each line's tokens concatenate back to the line),
the styled-range decomposition produced by `syntax_highlight` partitions the
text exactly: contiguous ranges, the first starting at 0, the last ending at
the text length, with no gaps or overlaps, and the range lengths summing to
the text length. -/
theorem syntax_highlight_partitions {σ : Type}
    (tokenize : σ → Str → σ × List (Style × Str))
    (hc : ∀ st line, joinTexts (tokenize st line).2 = line)
    (st0 : σ) (src : Str) :
    contiguousFromTo 0 src.length (syntax_highlight tokenize st0 src) = true
    ∧ ((syntax_highlight tokenize st0 src).map rangeLen).sum = src.length := by
  constructor
  · have h := highlight_go_contiguous tokenize hc (linesWithEndings src) st0 0
    rwa [flatten_linesWithEndings, Nat.zero_add] at h
  · have h := highlight_go_sum tokenize hc (linesWithEndings src) st0 0
    rwa [flatten_linesWithEndings] at h

/-- Witness for C4 at a concrete two-line text and a concrete
contract-satisfying tokenizer. -/
theorem syntax_highlight_partitions_witness :
    (∀ (st : Unit) (line : Str), joinTexts (wholeLineTok st line).2 = line)
    ∧ contiguousFromTo 0 (['a', 'b', '\n', 'c'].length)
        (syntax_highlight wholeLineTok () ['a', 'b', '\n', 'c']) = true
    ∧ ((syntax_highlight wholeLineTok () ['a', 'b', '\n', 'c']).map rangeLen).sum
        = ['a', 'b', '\n', 'c'].length := by
  have hc : ∀ (st : Unit) (line : Str), joinTexts (wholeLineTok st line).2 = line := by
    intro st line
    simp [wholeLineTok, joinTexts]
  exact ⟨hc, (syntax_highlight_partitions wholeLineTok hc () _).1,
    (syntax_highlight_partitions wholeLineTok hc () _).2⟩

theorem split_at_zero (v : List (Style × Str)) : split_at v 0 = ([], v) := by
  cases v <;> simp [split_at]

theorem split_at_fst (v : List (Style × Str)) (i : Nat) :
    joinTexts (split_at v i).1 = (joinTexts v).take i := by
  induction v generalizing i with
  | nil => simp [split_at, joinTexts]
  | cons t rest ih =>
    simp only [split_at]
    by_cases h0 : i = 0
    · subst h0
      simp [joinTexts]
    · rw [if_neg h0]
      by_cases hle : t.2.length ≤ i
      · rw [if_pos hle]
        simp only [joinTexts_cons, ih, List.take_append_eq_append_take,
          List.take_of_length_le hle]
      · rw [if_neg hle]
        have hi : i ≤ t.2.length := Nat.le_of_lt (Nat.lt_of_not_le hle)
        rw [joinTexts_cons, joinTexts_cons]
        simp only [joinTexts, List.map_nil, List.flatten_nil, List.append_nil,
          List.take_append_eq_append_take]
        rw [Nat.sub_eq_zero_of_le hi]
        simp [List.take_take]

theorem split_at_snd (v : List (Style × Str)) (i : Nat) :
    joinTexts (split_at v i).2 = (joinTexts v).drop i := by
  induction v generalizing i with
  | nil => simp [split_at, joinTexts]
  | cons t rest ih =>
    simp only [split_at]
    by_cases h0 : i = 0
    · subst h0
      simp
    · rw [if_neg h0]
      by_cases hle : t.2.length ≤ i
      · rw [if_pos hle]
        rw [ih, joinTexts_cons, List.drop_append_eq_append_drop,
          List.drop_eq_nil_of_le hle, List.nil_append]
      · rw [if_neg hle]
        have hi : i ≤ t.2.length := Nat.le_of_lt (Nat.lt_of_not_le hle)
        rw [joinTexts_cons, joinTexts_cons, List.drop_append_eq_append_drop,
          Nat.sub_eq_zero_of_le hi, List.drop_zero]

/-- Claim C5: given file text whose styled ranges slice back to the text, and
offsets `lo ≤ hi ≤ length`: with `lo = hi`, `mark_span` renders the
standalone pointer glyph with empty marked content (the `assert_eq!` on the
marked slice passes — the definition returns `none` when it would fire); with
`lo < hi`, the marked (wrapped) content, ignoring markup, is exactly
`text[lo..hi]`. -/
theorem mark_span_spec (text : Str) (src : List (Style × ByteRange)) (lo hi : Nat)
    (hjoin : joinTexts (src.map fun p => (p.1, sliceRange text p.2)) = text)
    (hlh : lo ≤ hi) (hhi : hi ≤ text.length) :
    (lo = hi → mark_span text src lo hi
      = some (Marked.glyph (text.take lo) (text.drop lo)))
    ∧ (lo < hi → mark_span text src lo hi
      = some (Marked.wrapped (text.take lo) ((text.drop lo).take (hi - lo))
          (text.drop hi))) := by
  have h1 : joinTexts (split_at (src.map fun p => (p.1, sliceRange text p.2)) lo).1
      = text.take lo := by rw [split_at_fst, hjoin]
  have h2 : joinTexts (split_at (src.map fun p => (p.1, sliceRange text p.2)) lo).2
      = text.drop lo := by rw [split_at_snd, hjoin]
  have h3 : joinTexts
      (split_at (split_at (src.map fun p => (p.1, sliceRange text p.2)) lo).2
        (hi - lo)).1
      = (text.drop lo).take (hi - lo) := by rw [split_at_fst, h2]
  have h4 : joinTexts
      (split_at (split_at (src.map fun p => (p.1, sliceRange text p.2)) lo).2
        (hi - lo)).2
      = text.drop hi := by
    rw [split_at_snd, h2, List.drop_drop]
    congr 1
    omega
  constructor
  · intro he
    have hz : hi - lo = 0 := by omega
    simp only [mark_span, hz, split_at_zero, h1, h2]
    rw [if_pos he]
    simp [joinTexts]
  · intro hlt
    have hne : ¬ lo = hi := Nat.ne_of_lt hlt
    have hlen : (joinTexts
        (split_at (split_at (src.map fun p => (p.1, sliceRange text p.2)) lo).2
          (hi - lo)).1).length = hi - lo := by
      rw [h3]
      simp only [List.length_take, List.length_drop]
      omega
    simp only [mark_span]
    rw [if_neg hne, if_neg (by omega : ¬ (joinTexts
      (split_at (split_at (src.map fun p => (p.1, sliceRange text p.2)) lo).2
        (hi - lo)).1).length = 0)]
    rw [h1, h3, h4]

/-- Witness for C5 at a concrete text, one styled range covering it, and both
a zero-width and a positive-width span. -/
theorem mark_span_spec_witness :
    (joinTexts ([((0 : Style), ByteRange.mk 0 2)].map
        fun p => (p.1, sliceRange ['a', 'b'] p.2)) = ['a', 'b'])
    ∧ (0 : Nat) < 1 ∧ (1 : Nat) ≤ ['a', 'b'].length
    ∧ mark_span ['a', 'b'] [((0 : Style), ByteRange.mk 0 2)] 0 1
        = some (Marked.wrapped [] ['a'] ['b'])
    ∧ mark_span ['a', 'b'] [((0 : Style), ByteRange.mk 0 2)] 1 1
        = some (Marked.glyph ['a'] ['b']) := by
  refine ⟨by decide, by decide, by decide, ?_, ?_⟩
  · exact (mark_span_spec ['a', 'b'] [((0 : Style), ByteRange.mk 0 2)] 0 1
      (by decide) (by decide) (by decide)).2 (by decide)
  · exact (mark_span_spec ['a', 'b'] [((0 : Style), ByteRange.mk 0 2)] 1 1
      (by decide) (by decide) (by decide)).1 (by decide)

/-- Claim C3: for every block and every valid current location in it, the row
marking the current statement is statement-index + 6 mid-statement, 6 at the
terminator of a block with no statements, and statement-count + 7 at the
terminator of a block with statements; within one block no two distinct
valid statement indices map to the same row. -/
theorem current_row_spec (blck : BasicBlockData) :
    (∀ si, si ≤ blck.statements.length →
      current_row blck si = some (
        if si = blck.statements.length then
          (if blck.statements.length = 0 then 6 else blck.statements.length + 7)
        else si + 6))
    ∧ ∀ si1 si2, si1 ≤ blck.statements.length → si2 ≤ blck.statements.length →
        current_row blck si1 = current_row blck si2 → si1 = si2 := by
  have hE : blck.statements.isEmpty = true ↔ blck.statements.length = 0 :=
    List.isEmpty_iff_length_eq_zero
  constructor
  · intro si hsi
    by_cases he : si = blck.statements.length
    · rw [current_row, if_pos he, if_pos he]
      by_cases hz : blck.statements.length = 0
      · rw [if_pos (hE.2 hz), if_pos hz]
      · rw [if_neg fun h => hz (hE.1 h), if_neg hz]
    · have hlt : si < blck.statements.length := Nat.lt_of_le_of_ne hsi he
      rw [current_row, if_neg he, if_pos hlt, if_neg he]
  · intro si1 si2 h1 h2 heq
    by_cases he1 : si1 = blck.statements.length
      <;> by_cases he2 : si2 = blck.statements.length
    · omega
    · exfalso
      have hlt2 : si2 < blck.statements.length := Nat.lt_of_le_of_ne h2 he2
      have hz : blck.statements.length ≠ 0 := by omega
      rw [current_row, current_row, if_pos he1, if_neg he2, if_pos hlt2,
        if_neg fun h => hz (hE.1 h)] at heq
      have := Option.some.inj heq
      omega
    · exfalso
      have hlt1 : si1 < blck.statements.length := Nat.lt_of_le_of_ne h1 he1
      have hz : blck.statements.length ≠ 0 := by omega
      rw [current_row, current_row, if_neg he1, if_pos hlt1, if_pos he2,
        if_neg fun h => hz (hE.1 h)] at heq
      have := Option.some.inj heq
      omega
    · have hlt1 : si1 < blck.statements.length := Nat.lt_of_le_of_ne h1 he1
      have hlt2 : si2 < blck.statements.length := Nat.lt_of_le_of_ne h2 he2
      rw [current_row, current_row, if_neg he1, if_pos hlt1, if_neg he2,
        if_pos hlt2] at heq
      have := Option.some.inj heq
      omega

/-- Witness for C3 on the two-statement scenario block: mid-statement row
1 + 6 and terminator row 2 + 7. -/
theorem current_row_spec_witness :
    (1 ≤ branchBlock.statements.length
      ∧ current_row branchBlock 1 = some 7)
    ∧ current_row branchBlock 2 = some 9 := by
  have h1 := (current_row_spec branchBlock).1 1 (by decide)
  have h2 := (current_row_spec branchBlock).1 2 (by decide)
  refine ⟨⟨by decide, ?_⟩, ?_⟩
  · rw [h1]; decide
  · rw [h2]; decide

/-- Claim C2: with no current location, the graph pane is the plain graph
with no position overlay (plus the defined red `Unwinding` placeholder), and
the source pane of a missing frame renders empty — defined placeholder
views, not errors. -/
theorem none_location_renders_plain {σ : Type} (body : Body)
    (breakpoints : LocalBreakpoints) (hashF : Str → Nat)
    (tokenize : σ → Str → σ × List (Style × Str)) (st0 : σ)
    (resolve : Span → Except String (Str × Nat × Nat)) (cache : Cache) :
    render_html { body := body, loc := none } breakpoints
      = some { svg := render_mir_svg body breakpoints none
               unwinding := true
               overlay := none }
    ∧ render_source hashF tokenize st0 resolve cache none = (cache, []) :=
  ⟨rfl, rfl⟩

/-- Claim C7: a second cache call with identical text returns the identical
entry (byte-identical styled ranges), leaves the cache unchanged, and does
not recompute the decomposition (the computed flag is false). -/
theorem highlight_cache_idempotent {σ : Type} (hashF : Str → Nat)
    (tokenize : σ → Str → σ × List (Style × Str)) (st0 : σ)
    (cache : Cache) (src : Str) :
    (get_or_compute hashF tokenize st0
        (get_or_compute hashF tokenize st0 cache src).2.1 src).1
      = (get_or_compute hashF tokenize st0 cache src).1
    ∧ (get_or_compute hashF tokenize st0
        (get_or_compute hashF tokenize st0 cache src).2.1 src).1.highlighted
      = (get_or_compute hashF tokenize st0 cache src).1.highlighted
    ∧ (get_or_compute hashF tokenize st0
        (get_or_compute hashF tokenize st0 cache src).2.1 src).2.1
      = (get_or_compute hashF tokenize st0 cache src).2.1
    ∧ (get_or_compute hashF tokenize st0
        (get_or_compute hashF tokenize st0 cache src).2.1 src).2.2 = false := by
  cases hfind : cache.find? (fun p => p.1 == hashF src) with
  | some p => simp [get_or_compute, hfind]
  | none => simp [get_or_compute, hfind, List.find?]

theorem process_span_sp {σ : Type} (hashF : Str → Nat)
    (tokenize : σ → Str → σ × List (Style × Str)) (st0 : σ)
    (resolve : Span → Except String (Str × Nat × Nat))
    (cache : Cache) (sp : Span) :
    (process_span hashF tokenize st0 resolve cache sp).2.sp = sp := by
  cases h : resolve sp <;> simp [process_span, h]

theorem process_spans_map_sp {σ : Type} (hashF : Str → Nat)
    (tokenize : σ → Str → σ × List (Style × Str)) (st0 : σ)
    (resolve : Span → Except String (Str × Nat × Nat)) :
    ∀ (spans : List Span) (cache : Cache),
      (process_spans hashF tokenize st0 resolve cache spans).2.map SourceEntry.sp
        = spans := by
  intro spans
  induction spans with
  | nil => intro cache; rfl
  | cons sp rest ih =>
    intro cache
    simp only [process_spans, List.map_cons]
    rw [process_span_sp, ih]

/-- Claim C6: the macro chain is built innermost-to-outermost by following
call-site spans, and the rendered output presents it reversed
(outermost-first): for synthetic spans A (innermost) → B → C (outermost),
the rendered entry order is C, B, A. -/
theorem macro_chain_display_order {σ : Type} (a b c : Nat) (hashF : Str → Nat)
    (tokenize : σ → Str → σ × List (Style × Str)) (st0 : σ)
    (resolve : Span → Except String (Str × Nat × Nat)) (cache : Cache) :
    macro_chain (spanInner a b c) = [spanInner a b c, spanMid b c, spanOuter c]
    ∧ ((render_source hashF tokenize st0 resolve cache
          (some { body := chainBody a b c
                  loc := some { block := 0, statement_index := 0 } })).2.map
        SourceEntry.sp)
      = [spanOuter c, spanMid b c, spanInner a b c] := by
  have hch : macro_chain (spanInner a b c)
      = [spanInner a b c, spanMid b c, spanOuter c] := by
    simp [macro_chain, spanInner, spanMid, spanOuter]
  refine ⟨hch, ?_⟩
  have hrs : (render_source hashF tokenize st0 resolve cache
        (some { body := chainBody a b c
                loc := some { block := 0, statement_index := 0 } })).2
      = (process_spans hashF tokenize st0 resolve cache
          (macro_chain (spanInner a b c)).reverse).2 := rfl
  rw [hrs, process_spans_map_sp, hch]
  rfl

/-- Counterexample to C1 as stated: in the spec's own scenario — one block
with two statements and a two-target branch, no breakpoints, current
location (block 0, statement 1) — the rendered overlay's edge-color map is
empty: zero edges are colored normal, not two, because the code builds edge
colors only when the location is at the terminator. -/
theorem edge_colors_midstatement_counterexample :
    ((render_html { body := branchBody, loc := some { block := 0, statement_index := 1 } }
        (fun _ => false)).bind RenderedHtml.overlay).map Overlay.edge_colors
      = some []
    ∧ ¬ ((edge_colors branchBody 0 1).countP
          (fun e => decide (e.2.2 = Color.green)) = 2) := by
  decide

/-- Claim C1 (amended): edges leaving the current block are colored by role
from the terminator kind only when the current location is at the block's
terminator (unconditional jump: single normal target; multi-way branch: all
targets normal; drop/drop-and-replace: one normal target plus the optional
unwind target; call: its optional continuation plus its optional cleanup);
at a mid-statement location no edges are colored — so the scenario at
(block 0, statement 1) colors zero edges. -/
theorem edge_colors_by_terminator_kind (body : Body) (block si : Nat) :
    (si ≠ (body.blockAt block).statements.length →
      edge_colors body block si = [])
    ∧ (si = (body.blockAt block).statements.length →
        edge_colors body block si =
          match (body.blockAt block).terminator.kind with
          | .goto t => [(block, t, Color.green)]
          | .switchInt ts => ts.map fun t => (block, t, Color.green)
          | .drop t u | .dropAndReplace t u =>
            (block, t, Color.green) :: u.toList.map fun t2 => (block, t2, Color.red)
          | .call d c =>
            (d.toList.map fun t => (block, t, Color.green))
              ++ c.toList.map fun t2 => (block, t2, Color.red)
          | .other _ => []) := by
  constructor
  · intro hne
    simp [edge_colors, hne]
  · intro he
    simp only [edge_colors, if_pos he]
    cases hk : (body.blockAt block).terminator.kind with
    | goto t => simp
    | switchInt ts => simp
    | drop t u => cases u <;> simp
    | dropAndReplace t u => cases u <;> simp
    | call d c => cases d <;> cases c <;> simp
    | other ss => simp

/-- Witness for C1 (amended) on the scenario body, at the terminator: both
branch targets colored normal; and mid-statement: nothing colored. -/
theorem edge_colors_by_terminator_kind_witness :
    ((2 : Nat) = (branchBody.blockAt 0).statements.length
      ∧ edge_colors branchBody 0 2 = [(0, 0, Color.green), (0, 0, Color.green)])
    ∧ ((1 : Nat) ≠ (branchBody.blockAt 0).statements.length
      ∧ edge_colors branchBody 0 1 = []) := by
  have h2 := (edge_colors_by_terminator_kind branchBody 0 2).2 (by decide)
  have h1 := (edge_colors_by_terminator_kind branchBody 0 1).1 (by decide)
  exact ⟨⟨by decide, by rw [h2]; rfl⟩, ⟨by decide, h1⟩⟩

theorem process_spans_length {σ : Type} (hashF : Str → Nat)
    (tokenize : σ → Str → σ × List (Style × Str)) (st0 : σ)
    (resolve : Span → Except String (Str × Nat × Nat)) :
    ∀ (spans : List Span) (cache : Cache),
      (process_spans hashF tokenize st0 resolve cache spans).2.length
        = spans.length := by
  intro spans
  induction spans with
  | nil => intro cache; rfl
  | cons sp rest ih =>
    intro cache
    simp only [process_spans, List.length_cons]
    rw [ih]

theorem process_spans_getD {σ : Type} (hashF : Str → Nat)
    (tokenize : σ → Str → σ × List (Style × Str)) (st0 : σ)
    (resolve : Span → Except String (Str × Nat × Nat)) :
    ∀ (spans : List Span) (cache : Cache) (i : Nat), i < spans.length →
      ((process_spans hashF tokenize st0 resolve cache spans).2.getD i default).sp
        = spans.getD i default
      ∧ (∀ e, resolve (spans.getD i default) = .error e →
          ((process_spans hashF tokenize st0 resolve cache spans).2.getD
            i default).result = .placeholder e)
      ∧ (∀ r, resolve (spans.getD i default) = .ok r →
          ∃ m, ((process_spans hashF tokenize st0 resolve cache spans).2.getD
            i default).result = .marked m) := by
  intro spans
  induction spans with
  | nil => intro cache i hi; exact absurd hi (by simp)
  | cons sp rest ih =>
    intro cache i hi
    cases i with
    | zero =>
      simp only [process_spans, List.getD_cons_zero]
      refine ⟨process_span_sp hashF tokenize st0 resolve cache sp, ?_, ?_⟩
      · intro e he
        simp [process_span, he]
      · intro r hr
        refine ⟨mark_span (get_or_compute hashF tokenize st0 cache r.1).1.string
          (get_or_compute hashF tokenize st0 cache r.1).1.highlighted r.2.1 r.2.2, ?_⟩
        simp [process_span, hr]
    | succ i =>
      simp only [process_spans, List.getD_cons_succ]
      exact ih _ i (by simpa using hi)

/-- Claim C9: one unresolvable span never aborts the rest — the output has
one entry per chain span in order, the failing span's entry alone is the
textual placeholder carrying the resolution error, and every resolvable
span's entry is still the marked markup. -/
theorem resolution_failure_is_local {σ : Type} (hashF : Str → Nat)
    (tokenize : σ → Str → σ × List (Style × Str)) (st0 : σ)
    (resolve : Span → Except String (Str × Nat × Nat)) (cache : Cache)
    (spans : List Span) (i : Nat) (hi : i < spans.length) (err : String)
    (hfail : resolve (spans.getD i default) = .error err) :
    (process_spans hashF tokenize st0 resolve cache spans).2.length = spans.length
    ∧ ((process_spans hashF tokenize st0 resolve cache spans).2.getD i default).sp
        = spans.getD i default
    ∧ ((process_spans hashF tokenize st0 resolve cache spans).2.getD
        i default).result = .placeholder err
    ∧ ∀ j r, j < spans.length → resolve (spans.getD j default) = .ok r →
        ∃ m, ((process_spans hashF tokenize st0 resolve cache spans).2.getD
          j default).result = .marked m := by
  refine ⟨process_spans_length hashF tokenize st0 resolve spans cache,
    (process_spans_getD hashF tokenize st0 resolve spans cache i hi).1,
    (process_spans_getD hashF tokenize st0 resolve spans cache i hi).2.1 err hfail,
    fun j r hj hok =>
      (process_spans_getD hashF tokenize st0 resolve spans cache j hj).2.2 r hok⟩

/-- Witness for C9 on a concrete two-span chain whose first span fails to
resolve: the first entry is the placeholder, the second is still marked. -/
theorem resolution_failure_is_local_witness :
    ((0 : Nat) < [failSpan, okSpan].length
      ∧ resolveFailFirst ([failSpan, okSpan].getD 0 default) = .error "gone")
    ∧ (process_spans (fun _ => 0) wholeLineTok () resolveFailFirst []
        [failSpan, okSpan]).2.length = [failSpan, okSpan].length
    ∧ ((process_spans (fun _ => 0) wholeLineTok () resolveFailFirst []
        [failSpan, okSpan]).2.getD 0 default).result
        = .placeholder "gone" := by
  have h := resolution_failure_is_local (fun _ => 0) wholeLineTok ()
    resolveFailFirst [] [failSpan, okSpan] 0 (by decide) "gone" (by rfl)
  exact ⟨⟨by decide, by rfl⟩, h.1, h.2.2.1⟩

theorem fmt_successor_labels_length (k : TerminatorKind) :
    k.fmt_successor_labels.length = k.succ_list.length := by
  cases k with
  | goto t => rfl
  | switchInt ts => simp [TerminatorKind.fmt_successor_labels, TerminatorKind.succ_list]
  | drop t u => cases u <;> rfl
  | dropAndReplace t u => cases u <;> rfl
  | call d c => cases d <;> cases c <;> rfl
  | other ss => simp [TerminatorKind.fmt_successor_labels, TerminatorKind.succ_list]

theorem write_edges_length (s : Nat) (mir : Body) :
    (write_edges s mir).length = (mir.blockAt s).terminator.kind.succ_list.length := by
  simp [write_edges, List.length_zip, fmt_successor_labels_length]

theorem mem_write_edges (s : Nat) (mir : Body) (x : DotItem)
    (hx : x ∈ write_edges s mir) :
    ∃ t lbl, x = .edge (NodeName.bb s) (NodeName.bb t) lbl := by
  simp only [write_edges, List.mem_map] at hx
  obtain ⟨p, hp, rfl⟩ := hx
  exact ⟨p.1, p.2, rfl⟩

theorem countP_write_edges (i s : Nat) (mir : Body) :
    (write_edges s mir).countP (isEdgeFrom i)
      = if s = i then (mir.blockAt i).terminator.kind.succ_list.length else 0 := by
  by_cases h : s = i
  · subst h
    rw [if_pos rfl, ← write_edges_length]
    rw [List.countP_eq_length]
    intro x hx
    obtain ⟨t, lbl, rfl⟩ := mem_write_edges s mir x hx
    simp [isEdgeFrom]
  · rw [if_neg h]
    rw [List.countP_eq_zero]
    intro x hx
    obtain ⟨t, lbl, rfl⟩ := mem_write_edges s mir x hx
    simp [isEdgeFrom, h]

theorem sum_range_if (n i v : Nat) (hi : i < n) :
    ((List.range n).map fun j => if j = i then v else 0).sum = v := by
  induction n with
  | zero => omega
  | succ n ih =>
    rw [List.range_succ, List.map_append, List.sum_append]
    by_cases h : i = n
    · subst h
      have h0 : ((List.range i).map fun j => if j = i then v else 0).sum = 0 := by
        apply List.sum_eq_zero
        intro x hx
        simp only [List.mem_map] at hx
        obtain ⟨j, hj, rfl⟩ := hx
        rw [List.mem_range] at hj
        simp [Nat.ne_of_lt hj]
      simp [h0]
    · have hi2 : i < n := by omega
      rw [ih hi2]
      have hne : n ≠ i := fun hh => h hh.symm
      simp [hne]

/-- Claim C8: the emitted graph description has exactly one node per basic
block, and, for every block, exactly one edge leaving it per successor
reported by its terminator. -/
theorem render_mir_svg_counts (mir : Body) (breakpoints : LocalBreakpoints)
    (promoted : Option Nat) (i : Nat) (hi : i < mir.basic_blocks.length) :
    (render_mir_svg mir breakpoints promoted).countP isNodeItem
      = mir.basic_blocks.length
    ∧ (render_mir_svg mir breakpoints promoted).countP (isEdgeFrom i)
      = (mir.blockAt i).terminator.kind.succ_list.length := by
  constructor
  · rw [render_mir_svg, List.countP_append]
    have h1 : ((List.range mir.basic_blocks.length).map fun block =>
        write_node block mir breakpoints promoted).countP isNodeItem
        = mir.basic_blocks.length := by
      rw [List.countP_eq_length.2, List.length_map, List.length_range]
      intro x hx
      simp only [List.mem_map] at hx
      obtain ⟨b, hb, rfl⟩ := hx
      rfl
    have h2 : (((List.range mir.basic_blocks.length).map fun source =>
        write_edges source mir).flatten).countP isNodeItem = 0 := by
      rw [List.countP_eq_zero]
      intro x hx
      simp only [List.mem_flatten, List.mem_map] at hx
      obtain ⟨l, ⟨s, hs, rfl⟩, hxl⟩ := hx
      obtain ⟨t, lbl, rfl⟩ := mem_write_edges s mir x hxl
      simp [isNodeItem]
    rw [h1, h2]
    omega
  · rw [render_mir_svg, List.countP_append]
    have h1 : ((List.range mir.basic_blocks.length).map fun block =>
        write_node block mir breakpoints promoted).countP (isEdgeFrom i) = 0 := by
      rw [List.countP_eq_zero]
      intro x hx
      simp only [List.mem_map] at hx
      obtain ⟨b, hb, rfl⟩ := hx
      simp [write_node, isEdgeFrom]
    have h2 : (((List.range mir.basic_blocks.length).map fun source =>
        write_edges source mir).flatten).countP (isEdgeFrom i)
        = (mir.blockAt i).terminator.kind.succ_list.length := by
      rw [List.countP_flatten, List.map_map]
      have hmap : ((List.range mir.basic_blocks.length).map
            (List.countP (isEdgeFrom i) ∘ fun source => write_edges source mir))
          = (List.range mir.basic_blocks.length).map fun j =>
              if j = i then (mir.blockAt i).terminator.kind.succ_list.length
              else 0 := by
        apply List.map_congr_left
        intro j hj
        exact countP_write_edges i j mir
      rw [hmap, sum_range_if _ _ _ hi]
    rw [h1, h2, Nat.zero_add]

/-- Witness for C8 on the concrete two-block body: two nodes, and two edges
leaving block 0 (the call's continuation and its cleanup successor). -/
theorem render_mir_svg_counts_witness :
    (0 : Nat) < twoBlockBody.basic_blocks.length
    ∧ (render_mir_svg twoBlockBody (fun _ => false) none).countP isNodeItem = 2
    ∧ (render_mir_svg twoBlockBody (fun _ => false) none).countP (isEdgeFrom 0) = 2 := by
  have h := render_mir_svg_counts twoBlockBody (fun _ => false) none 0 (by decide)
  refine ⟨by decide, ?_, ?_⟩
  · rw [h.1]
    decide
  · rw [h.2]
    decide

/-- Claim C10: in a promoted render every declared node bears the tagged name
`promoted<p>.<index>`, while every emitted edge references its endpoints by
the untagged name `bb<index>`; consequently no edge endpoint name matches any
declared node name of the promoted render. -/
theorem promoted_edge_names_untagged (mir : Body) (breakpoints : LocalBreakpoints)
    (p : Nat) :
    (∀ name label, DotItem.node name label ∈ render_mir_svg mir breakpoints (some p) →
      ∃ i, name = NodeName.promoted p i)
    ∧ (∀ s t label, DotItem.edge s t label ∈ render_mir_svg mir breakpoints (some p) →
      (∃ i, s = NodeName.bb i) ∧ ∃ j, t = NodeName.bb j)
    ∧ ∀ name label s t elabel,
        DotItem.node name label ∈ render_mir_svg mir breakpoints (some p) →
        DotItem.edge s t elabel ∈ render_mir_svg mir breakpoints (some p) →
        name ≠ s ∧ name ≠ t := by
  have hshape : ∀ x ∈ render_mir_svg mir breakpoints (some p),
      (∃ b label, x = DotItem.node (NodeName.promoted p b) label)
      ∨ ∃ s t lbl, x = DotItem.edge (NodeName.bb s) (NodeName.bb t) lbl := by
    intro x hx
    rw [render_mir_svg, List.mem_append] at hx
    cases hx with
    | inl h =>
      simp only [List.mem_map] at h
      obtain ⟨b, hb, rfl⟩ := h
      exact Or.inl ⟨b, write_node_label b mir breakpoints (some p), rfl⟩
    | inr h =>
      simp only [List.mem_flatten, List.mem_map] at h
      obtain ⟨l, ⟨s, hs, rfl⟩, hxl⟩ := h
      obtain ⟨t, lbl, rfl⟩ := mem_write_edges s mir x hxl
      exact Or.inr ⟨s, t, lbl, rfl⟩
  have hn : ∀ name label,
      DotItem.node name label ∈ render_mir_svg mir breakpoints (some p) →
      ∃ i, name = NodeName.promoted p i := by
    intro name label hmem
    cases hshape _ hmem with
    | inl h =>
      obtain ⟨b, lbl2, hb⟩ := h
      injection hb with hname hlbl
      exact ⟨b, hname⟩
    | inr h =>
      obtain ⟨s, t, lbl, hb⟩ := h
      exact absurd hb (by simp)
  have he : ∀ s t label,
      DotItem.edge s t label ∈ render_mir_svg mir breakpoints (some p) →
      (∃ i, s = NodeName.bb i) ∧ ∃ j, t = NodeName.bb j := by
    intro s t label hmem
    cases hshape _ hmem with
    | inl h =>
      obtain ⟨b, lbl2, hb⟩ := h
      exact absurd hb (by simp)
    | inr h =>
      obtain ⟨s2, t2, lbl, hb⟩ := h
      injection hb with hs ht hl
      exact ⟨⟨s2, hs⟩, ⟨t2, ht⟩⟩
  refine ⟨hn, he, ?_⟩
  intro name label s t elabel hmem1 hmem2
  obtain ⟨i, rfl⟩ := hn name label hmem1
  obtain ⟨⟨j1, rfl⟩, ⟨j2, rfl⟩⟩ := he s t elabel hmem2
  exact ⟨by simp, by simp⟩

/-- Witness for C10 on a concrete promoted render of a one-block self-loop:
the emitted edge references `bb0`, which no declared node name equals. -/
theorem promoted_edge_names_untagged_witness :
    (DotItem.edge (NodeName.bb 0) (NodeName.bb 0) ""
        ∈ render_mir_svg gotoBody (fun _ => false) (some 5))
    ∧ (∃ i, NodeName.bb 0 = NodeName.bb i)
    ∧ NodeName.promoted 5 0 ≠ NodeName.bb 0 := by
  have h := (promoted_edge_names_untagged gotoBody (fun _ => false) 5).2.1
    (NodeName.bb 0) (NodeName.bb 0) "" (by decide)
  exact ⟨by decide, h.1, by decide⟩

end Priroda
